import Mathlib

/-!
Verification of the local logic of the blockchain_lab3 scripts
(`src/making_new_transaction.py` and `src/getting_unspent_transactions.py`):
greedy coin selection, the fee/size formulas, unspent-balance aggregation,
and the create → sign → verify → broadcast sequencing.

Modelling conventions, shared by all definitions below:
* Python `Decimal` arithmetic on the exact decimal amounts sent by the node
  is modelled by exact rational arithmetic over `ℚ`; Python integers by `ℤ`.
* The remote node is modelled by an explicit outcome for each JSON-RPC call
  (`RpcOutcome`): a returned value, a raised `JSONRPCException`, or any other
  raised exception.  A Python function that can let an exception escape is
  modelled as returning `Except String α`, with `.error` standing for the
  uncaught exception; where a claim needs "which RPC calls were attempted",
  the model also returns the list of calls made.
-/

/-- Python `int(...)` applied to an exact rational value: truncation toward
zero, which is what `Decimal.__int__` does.  For a rational in lowest terms
this is the truncating division of the numerator by the denominator. -/
def pyInt (q : ℚ) : ℤ := q.num.tdiv q.den

/-- `int(Decimal(x) * Decimal('1e8'))` from the source, the satoshi value the
scripts derive from a BTC amount (src/making_new_transaction.py lines 168 and
179, src/getting_unspent_transactions.py line 69). -/
def btcToSats (amount : ℚ) : ℤ := pyInt (amount * 100000000)

/-- Modelled from the spec for the comparison in claim C4 only: the spec
states the satoshi target is `round(amount × 10^8)`, rounding to the nearest
integer.  `round` here is Mathlib rounding (half away from zero); at the
counterexample below every rounding convention agrees. -/
def specRoundSats (amount : ℚ) : ℤ := round (amount * 100000000)

/-- One element of the `listunspent` reply, restricted to the fields
`select_inputs_for_amount` reads (src/making_new_transaction.py lines
173-184). -/
structure UnspentOutput where
  txid : String
  vout : Nat
  amount : ℚ
  confirmations : ℤ
  deriving DecidableEq

/-- One entry of the selected-inputs list built by `select_inputs_for_amount`:
the dictionary with the keys `txid` and `vout`
(src/making_new_transaction.py lines 180-183). -/
structure TxInput where
  txid : String
  vout : Nat
  deriving DecidableEq

/-- The input record appended for a chosen unspent output. -/
def mkTxInput (o : UnspentOutput) : TxInput := ⟨o.txid, o.vout⟩

/-- `int(Decimal(output['amount']) * Decimal('1e8'))`
(src/making_new_transaction.py line 179). -/
def outputSats (o : UnspentOutput) : ℤ := btcToSats o.amount

/-- Total satoshi value of a list of unspent outputs. -/
def sumSats (l : List UnspentOutput) : ℤ := (l.map outputSats).sum

/-- The key order realised by
`sorted(unspent_outputs, key=lambda x: x['confirmations'], reverse=True)`:
`a` may stand before `b` exactly when `b` has no more confirmations. -/
def confDescOrder (a b : UnspentOutput) : Prop :=
  b.confirmations ≤ a.confirmations

instance : DecidableRel confDescOrder :=
  fun a b => inferInstanceAs (Decidable (b.confirmations ≤ a.confirmations))

instance : IsTotal UnspentOutput confDescOrder :=
  ⟨fun a b => le_total b.confirmations a.confirmations⟩

instance : IsTrans UnspentOutput confDescOrder :=
  ⟨fun _ _ _ h h' => le_trans h' h⟩

/-- `sorted(unspent_outputs, key=lambda x: x['confirmations'], reverse=True)`
(src/making_new_transaction.py line 173).  Python's sort is stable, and for a
total preorder the stable sort is unique, so the stable insertion sort with
`confDescOrder` computes exactly what CPython's stable sort returns. -/
def sortByConfDesc (l : List UnspentOutput) : List UnspentOutput :=
  List.insertionSort confDescOrder l

/-- The accumulation loop of `select_inputs_for_amount`
(src/making_new_transaction.py lines 175-184): walk the sorted outputs, break
as soon as the running total has reached the target, otherwise append the
output's input record and add its satoshi value. -/
def selectLoop (target_sats : ℤ) :
    List UnspentOutput → ℤ → List TxInput → List TxInput × ℤ
  | [], total_sats, selected_inputs => (selected_inputs, total_sats)
  | o :: rest, total_sats, selected_inputs =>
    if target_sats ≤ total_sats then (selected_inputs, total_sats)
    else
      selectLoop target_sats rest (total_sats + outputSats o)
        (selected_inputs ++ [mkTxInput o])

/-- `select_inputs_for_amount` (src/making_new_transaction.py lines 157-190):
derive the satoshi target, stably sort by confirmations descending, run the
greedy loop, and report insufficient funds as `([], 0, 0)`.  The result is
(selected inputs, total satoshis, change satoshis). -/
def select_inputs_for_amount (target_amount_btc : ℚ)
    (unspent_outputs : List UnspentOutput) : List TxInput × ℤ × ℤ :=
  let target_sats := btcToSats target_amount_btc
  let sorted_outputs := sortByConfDesc unspent_outputs
  let r := selectLoop target_sats sorted_outputs 0 []
  if r.2 < target_sats then ([], 0, 0)
  else (r.1, r.2, r.2 - target_sats)

/-- `estimate_transaction_size` (src/making_new_transaction.py lines
134-155), with the constants local to the function body. -/
def estimate_transaction_size (input_count output_count : ℤ)
    (is_segwit : Bool) : ℤ :=
  let BASE_TX_SIZE : ℤ := 10
  let INPUT_SIZE_NON_SEGWIT : ℤ := 148
  let INPUT_SIZE_SEGWIT : ℤ := 68
  let OUTPUT_SIZE : ℤ := 34
  let input_size := if is_segwit then INPUT_SIZE_SEGWIT else INPUT_SIZE_NON_SEGWIT
  BASE_TX_SIZE + input_count * input_size + output_count * OUTPUT_SIZE

/-- `calculate_transaction_fee` (src/making_new_transaction.py lines
43-54). -/
def calculate_transaction_fee (tx_size_bytes sat_per_byte : ℤ) : ℤ :=
  tx_size_bytes * sat_per_byte

/-- The outcome of one JSON-RPC call: a returned value, a raised
`JSONRPCException`, or any other raised exception (for example a transport
error), which a Python `except JSONRPCException` clause does not catch. -/
inductive RpcOutcome (α : Type) where
  | ok (val : α)
  | jsonRpcError (msg : String)
  | otherError (msg : String)
  deriving DecidableEq

/-- The RPC methods whose invocation the claims track. -/
inductive RpcCall where
  | listunspent
  | createrawtransaction
  | signrawtransactionwithwallet
  | sendrawtransaction
  | listreceivedbyaddress
  deriving DecidableEq

/-- The `signrawtransactionwithwallet` reply as the flow reads it: the
`complete` flag and the signed hex. -/
structure SignedTx where
  complete : Bool
  hex : String
  deriving DecidableEq

/-- `create_raw_transaction` (src/making_new_transaction.py lines 56-76):
`None` without any RPC call when no client is connected; otherwise one
`createrawtransaction` call, with `except JSONRPCException` turned into
`None` and any other exception left uncaught (`.error`).  The result pairs
the Python return value with the list of RPC calls attempted. -/
def create_raw_transaction (node_client : Bool) (inputs_list : List TxInput)
    (outputs_dict : List (String × ℚ)) (rpc : RpcOutcome String) :
    Except String (Option String) × List RpcCall :=
  if !node_client then (.ok none, [])
  else
    match rpc with
    | .ok raw_tx => (.ok (some raw_tx), [.createrawtransaction])
    | .jsonRpcError _ => (.ok none, [.createrawtransaction])
    | .otherError e => (.error e, [.createrawtransaction])

/-- `sign_transaction` (src/making_new_transaction.py lines 78-93): one
`signrawtransactionwithwallet` call, `except JSONRPCException` turned into
`None`, any other exception uncaught.  There is no client guard in the
source. -/
def sign_transaction (raw_tx_hex : String) (rpc : RpcOutcome SignedTx) :
    Except String (Option SignedTx) × List RpcCall :=
  match rpc with
  | .ok signed_tx => (.ok (some signed_tx), [.signrawtransactionwithwallet])
  | .jsonRpcError _ => (.ok none, [.signrawtransactionwithwallet])
  | .otherError e => (.error e, [.signrawtransactionwithwallet])

/-- `broadcast_transaction` (src/making_new_transaction.py lines 95-110): one
`sendrawtransaction` call, `except JSONRPCException` turned into `None`, any
other exception uncaught. -/
def broadcast_transaction (signed_tx_hex : String) (rpc : RpcOutcome String) :
    Except String (Option String) × List RpcCall :=
  match rpc with
  | .ok tx_hash => (.ok (some tx_hash), [.sendrawtransaction])
  | .jsonRpcError _ => (.ok none, [.sendrawtransaction])
  | .otherError e => (.error e, [.sendrawtransaction])

/-- `get_unspent_outputs` (src/making_new_transaction.py lines 112-132): one
`listunspent` call, `except JSONRPCException` turned into the empty list, any
other exception uncaught. -/
def get_unspent_outputs (rpc : RpcOutcome (List UnspentOutput)) :
    Except String (List UnspentOutput) × List RpcCall :=
  match rpc with
  | .ok unspent => (.ok unspent, [.listunspent])
  | .jsonRpcError _ => (.ok [], [.listunspent])
  | .otherError e => (.error e, [.listunspent])

/-- One element of the `listunspent` reply as read by
`calculate_unspent_balance` (src/getting_unspent_transactions.py lines
66-80). -/
structure NodeUtxo where
  txid : String
  vout : Nat
  amount : ℚ
  confirmations : ℤ
  spendable : Bool
  safe : Option Bool
  address : String
  deriving DecidableEq

/-- One `transaction_record` (src/getting_unspent_transactions.py lines
72-80).  `btc_value` is `float(transaction['amount'])` in the source; the
IEEE-754 rounding of that conversion is not modelled (no claim reads this
field), the exact value is kept. -/
structure UnspentRecord where
  transaction_id : String
  output_index : Nat
  btc_value : ℚ
  sats_value : ℤ
  confirmations : ℤ
  spendable : Bool
  secure : Bool
  deriving DecidableEq

/-- The record built for a UTXO that belongs to the target address
(src/getting_unspent_transactions.py lines 69-80); `secure` is
`transaction.get('safe', True)`. -/
def mkRecord (t : NodeUtxo) : UnspentRecord :=
  { transaction_id := t.txid
    output_index := t.vout
    btc_value := t.amount
    sats_value := btcToSats t.amount
    confirmations := t.confirmations
    spendable := t.spendable
    secure := t.safe.getD true }

/-- The aggregation loop of `calculate_unspent_balance`
(src/getting_unspent_transactions.py lines 63-81): cumulative satoshis and
the record list over the UTXOs whose `address` field equals the target. -/
def scanUnspent (target_address : String) :
    List NodeUtxo → ℤ × List UnspentRecord
  | [] => (0, [])
  | t :: rest =>
    let r := scanUnspent target_address rest
    if t.address = target_address then
      (btcToSats t.amount + r.1, mkRecord t :: r.2)
    else r

/-- The report dictionary (src/getting_unspent_transactions.py lines
83-91). -/
structure BalanceReport where
  address : String
  total_btc : ℚ
  total_sats : ℤ
  unspent_count : ℕ
  unspent_list : List UnspentRecord
  deriving DecidableEq

/-- The report built from a `listunspent` reply
(src/getting_unspent_transactions.py lines 63-91); `total_btc` is
`Decimal(cumulative_sats) / Decimal('1e8')`, an exact decimal division. -/
def mkBalanceReport (target_address : String) (txs : List NodeUtxo) :
    BalanceReport :=
  let s := scanUnspent target_address txs
  { address := target_address
    total_btc := (s.1 : ℚ) / 100000000
    total_sats := s.1
    unspent_count := s.2.length
    unspent_list := s.2 }

/-- `calculate_unspent_balance` (src/getting_unspent_transactions.py lines
45-100): `None` without any RPC call when no client is connected; otherwise
one `listunspent` call, with both `except JSONRPCException` and
`except Exception` converting any raised failure into `None`. -/
def calculate_unspent_balance (node_client : Bool) (target_address : String)
    (rpc : RpcOutcome (List NodeUtxo)) :
    Except String (Option BalanceReport) × List RpcCall :=
  if !node_client then (.ok none, [])
  else
    match rpc with
    | .ok unspent_transactions =>
      (.ok (some (mkBalanceReport target_address unspent_transactions)),
        [.listunspent])
    | .jsonRpcError _ => (.ok none, [.listunspent])
    | .otherError _ => (.ok none, [.listunspent])

/-- The steps of `create_and_send_transaction` whose sequencing claim C7
tracks (src/making_new_transaction.py lines 193-288).  `verifyComplete` is
the local check of the `complete` flag of the signing result. -/
inductive FlowStep where
  | connectNode
  | fetchUnspent
  | fetchChangeAddress
  | createRaw
  | signTx
  | verifyComplete
  | broadcastTx
  deriving DecidableEq

/-- `AMOUNT_BTC = 0.001` (src/making_new_transaction.py line 204).  The IEEE
double 0.001 and the rational 1/1000 produce the same satoshi values in every
expression of the flow (both give 100000 satoshis). -/
def AMOUNT_BTC : ℚ := 1 / 1000

/-- `FEE_RATE = 2` satoshis per byte (src/making_new_transaction.py line
205). -/
def FEE_RATE : ℤ := 2

/-- `RECIPIENT_ADDRESS` (src/making_new_transaction.py line 203). -/
def RECIPIENT_ADDRESS : String := "bc1qaddresshere"

/-- The outcome of every external interaction `create_and_send_transaction`
may perform, fixed up front: a shallow embedding of the node's behaviour
during one run of the flow. -/
structure NodeEnv where
  connectOk : Bool
  unspentRpc : RpcOutcome (List UnspentOutput)
  changeAddrRpc : RpcOutcome (List String)
  createRpc : RpcOutcome String
  signRpc : RpcOutcome SignedTx
  broadcastRpc : RpcOutcome String

/-- The create → sign → verify → broadcast tail of the flow
(src/making_new_transaction.py lines 264-288), given the trace of steps
performed so far.  `if not raw_tx` and `if not signed_tx` follow Python
falsiness: `None` and the empty string are falsy.  The `broadcastTx` step is
recorded whatever `sendrawtransaction` returns, since the flow only prints
after it. -/
def txAssembly (env : NodeEnv) (inputs : List TxInput)
    (outputs : List (String × ℚ)) (t : List FlowStep) : List FlowStep :=
  let t3 := t ++ [FlowStep.createRaw]
  match (create_raw_transaction true inputs outputs env.createRpc).1 with
  | .error _ => t3
  | .ok none => t3
  | .ok (some raw_tx) =>
    if raw_tx.isEmpty then t3
    else
      let t4 := t3 ++ [FlowStep.signTx]
      match (sign_transaction raw_tx env.signRpc).1 with
      | .error _ => t4
      | .ok none => t4
      | .ok (some signed_tx) =>
        let t5 := t4 ++ [FlowStep.verifyComplete]
        if !signed_tx.complete then t5
        else t5 ++ [FlowStep.broadcastTx]

/-- `create_and_send_transaction` (src/making_new_transaction.py lines
193-288) as the sequence of steps it performs against a node environment:
connect, fetch UTXOs, select inputs, size/fee checks, optional change-address
lookup (whose bare `except:` aborts the flow on any failure), then the
assembly tail. -/
def create_and_send_transaction (env : NodeEnv) : List FlowStep :=
  if !env.connectOk then [FlowStep.connectNode]
  else
    let t1 := [FlowStep.connectNode, FlowStep.fetchUnspent]
    match (get_unspent_outputs env.unspentRpc).1 with
    | .error _ => t1
    | .ok unspent_outputs =>
      if unspent_outputs.isEmpty then t1
      else
        let sel := select_inputs_for_amount AMOUNT_BTC unspent_outputs
        if sel.1.isEmpty then t1
        else
          let output_count : ℤ := if 0 < sel.2.2 then 2 else 1
          let estimated_size :=
            estimate_transaction_size (sel.1.length : ℤ) output_count true
          let fee_sats := calculate_transaction_fee estimated_size FEE_RATE
          let amount_sats := btcToSats AMOUNT_BTC
          if sel.2.1 < amount_sats + fee_sats then t1
          else
            let change_sats := sel.2.1 - amount_sats - fee_sats
            let outputs : List (String × ℚ) := [(RECIPIENT_ADDRESS, AMOUNT_BTC)]
            if 0 < change_sats then
              let t2 := t1 ++ [FlowStep.fetchChangeAddress]
              match env.changeAddrRpc with
              | .ok [] => txAssembly env sel.1 outputs t2
              | .ok (change_address :: _) =>
                txAssembly env sel.1
                  (outputs ++ [(change_address, (change_sats : ℚ) / 100000000)]) t2
              | .jsonRpcError _ => t2
              | .otherError _ => t2
            else txAssembly env sel.1 outputs t1

theorem selectLoop_nil (t total : ℤ) (acc : List TxInput) :
    selectLoop t [] total acc = (acc, total) := rfl

theorem selectLoop_cons (t : ℤ) (o : UnspentOutput) (rest : List UnspentOutput)
    (total : ℤ) (acc : List TxInput) :
    selectLoop t (o :: rest) total acc =
      if t ≤ total then (acc, total)
      else selectLoop t rest (total + outputSats o) (acc ++ [mkTxInput o]) := rfl

theorem sumSats_nil : sumSats [] = 0 := rfl

theorem sumSats_cons (o : UnspentOutput) (l : List UnspentOutput) :
    sumSats (o :: l) = outputSats o + sumSats l := by
  simp [sumSats]

theorem sumSats_append (l₁ l₂ : List UnspentOutput) :
    sumSats (l₁ ++ l₂) = sumSats l₁ + sumSats l₂ := by
  simp [sumSats]

/-- Exact description of the accumulation loop: it consumes the shortest
prefix of its list whose satoshi value reaches the target (the whole list if
none does), appending that prefix's input records to the accumulator and its
satoshi value to the running total. -/
theorem selectLoop_spec (target : ℤ) (l : List UnspentOutput) :
    ∀ (total : ℤ) (acc : List TxInput),
      ∃ n, n ≤ l.length ∧
        selectLoop target l total acc
          = (acc ++ (l.take n).map mkTxInput, total + sumSats (l.take n))
        ∧ (∀ k, k < n → total + sumSats (l.take k) < target)
        ∧ (target ≤ total + sumSats (l.take n) ∨ n = l.length) := by
  induction l with
  | nil =>
    intro total acc
    refine ⟨0, le_refl 0, by simp [selectLoop_nil, sumSats_nil], ?_, Or.inr rfl⟩
    intro k hk
    exact absurd hk (Nat.not_lt_zero k)
  | cons o rest ih =>
    intro total acc
    by_cases hbr : target ≤ total
    · refine ⟨0, Nat.zero_le _, ?_, ?_, Or.inl ?_⟩
      · simp [selectLoop_cons, hbr, sumSats_nil]
      · intro k hk
        exact absurd hk (Nat.not_lt_zero k)
      · simpa [sumSats_nil] using hbr
    · obtain ⟨n, hn, heq, hmin, hlast⟩ := ih (total + outputSats o) (acc ++ [mkTxInput o])
      refine ⟨n + 1, Nat.succ_le_succ hn, ?_, ?_, ?_⟩
      · rw [selectLoop_cons, if_neg hbr, heq, List.take_succ_cons]
        simp [sumSats_cons, List.append_assoc, add_assoc]
      · intro k hk
        cases k with
        | zero => simpa [sumSats_nil] using lt_of_not_le hbr
        | succ j =>
          have hj := hmin j (Nat.lt_of_succ_lt_succ hk)
          rw [List.take_succ_cons, sumSats_cons]
          linarith
      · rcases hlast with h | h
        · left
          rw [List.take_succ_cons, sumSats_cons]
          linarith
        · right
          simp [h, List.length_cons]

/-- Unfolding of `select_inputs_for_amount` with its `let` bindings
substituted. -/
theorem select_inputs_eq (a : ℚ) (outs : List UnspentOutput) :
    select_inputs_for_amount a outs =
      if (selectLoop (btcToSats a) (sortByConfDesc outs) 0 []).2 < btcToSats a
      then ([], 0, 0)
      else ((selectLoop (btcToSats a) (sortByConfDesc outs) 0 []).1,
            (selectLoop (btcToSats a) (sortByConfDesc outs) 0 []).2,
            (selectLoop (btcToSats a) (sortByConfDesc outs) 0 []).2 - btcToSats a) := rfl

theorem sumSats_perm {l₁ l₂ : List UnspentOutput} (h : l₁.Perm l₂) :
    sumSats l₁ = sumSats l₂ := (h.map outputSats).sum_eq

theorem sortByConfDesc_perm (l : List UnspentOutput) :
    (sortByConfDesc l).Perm l :=
  List.perm_insertionSort confDescOrder l

theorem sumSats_sortByConfDesc (l : List UnspentOutput) :
    sumSats (sortByConfDesc l) = sumSats l :=
  sumSats_perm (sortByConfDesc_perm l)

/-- If the target is at most the satoshi value of the whole list, the loop
ends with a total that reaches the target. -/
theorem selectLoop_reaches (target : ℤ) (l : List UnspentOutput)
    (h : target ≤ sumSats l) : target ≤ (selectLoop target l 0 []).2 := by
  obtain ⟨n, hn, heq, hmin, hlast⟩ := selectLoop_spec target l 0 []
  rw [heq]
  rcases hlast with h' | h'
  · simpa using h'
  · rw [h', List.take_length]
    simpa using h

theorem pyInt_nonneg {q : ℚ} (h : 0 ≤ q) : 0 ≤ pyInt q :=
  Int.tdiv_nonneg (Rat.num_nonneg.mpr h) (Int.natCast_nonneg q.den)

theorem outputSats_nonneg {o : UnspentOutput} (h : 0 ≤ o.amount) :
    0 ≤ outputSats o :=
  pyInt_nonneg (mul_nonneg h (by norm_num))

theorem sumSats_nonneg {l : List UnspentOutput}
    (h : ∀ o ∈ l, 0 ≤ o.amount) : 0 ≤ sumSats l := by
  induction l with
  | nil => simp [sumSats_nil]
  | cons o rest ih =>
    rw [sumSats_cons]
    have h1 := outputSats_nonneg (h o (List.mem_cons_self o rest))
    have h2 := ih (fun x hx => h x (List.mem_cons_of_mem o hx))
    linarith

theorem sumSats_take_le (l : List UnspentOutput) (n : ℕ)
    (h : ∀ o ∈ l, 0 ≤ o.amount) : sumSats (l.take n) ≤ sumSats l := by
  conv_rhs => rw [← List.take_append_drop n l]
  rw [sumSats_append]
  have : 0 ≤ sumSats (l.drop n) :=
    sumSats_nonneg (fun o ho => h o (List.drop_subset n l ho))
  linarith

/-- With nonnegative amounts, a total that the whole list cannot reach is
never reached by a prefix either, so the loop consumes everything. -/
theorem selectLoop_insufficient (target : ℤ) (l : List UnspentOutput)
    (hpos : ∀ o ∈ l, 0 ≤ o.amount) (h : sumSats l < target) :
    selectLoop target l 0 [] = (l.map mkTxInput, sumSats l) := by
  obtain ⟨n, hn, heq, hmin, hlast⟩ := selectLoop_spec target l 0 []
  have hlen : n = l.length := by
    rcases hlast with h' | h'
    · exfalso
      have hle := sumSats_take_le l n hpos
      simp only [zero_add] at h'
      linarith
    · exact h'
  rw [heq, hlen, List.take_length]
  simp

/-- C1: for every list of unspent outputs and every target amount whose
satoshi value is at most the sum of all the outputs' satoshi values,
`select_inputs_for_amount` terminates (it is a total function here) and
returns a selection whose cumulative satoshi total reaches the target, with
change equal to total minus target and hence nonnegative. -/
theorem claim_c1 (target_amount_btc : ℚ) (unspent_outputs : List UnspentOutput)
    (h : btcToSats target_amount_btc ≤ sumSats unspent_outputs) :
    btcToSats target_amount_btc
        ≤ (select_inputs_for_amount target_amount_btc unspent_outputs).2.1
    ∧ (select_inputs_for_amount target_amount_btc unspent_outputs).2.2
        = (select_inputs_for_amount target_amount_btc unspent_outputs).2.1
            - btcToSats target_amount_btc
    ∧ 0 ≤ (select_inputs_for_amount target_amount_btc unspent_outputs).2.2 := by
  have hsorted : btcToSats target_amount_btc
      ≤ sumSats (sortByConfDesc unspent_outputs) := by
    rw [sumSats_sortByConfDesc]
    exact h
  have hr := selectLoop_reaches (btcToSats target_amount_btc)
    (sortByConfDesc unspent_outputs) hsorted
  rw [select_inputs_eq, if_neg (not_lt.mpr hr)]
  exact ⟨hr, rfl, by simpa using hr⟩

/-- A fixed single unspent output of 1 BTC with 3 confirmations, used by the
concrete witnesses below. -/
def witnessOutputs : List UnspentOutput := [⟨"w0", 0, 1, 3⟩]

theorem claim_c1_witness :
    btcToSats 1 ≤ (select_inputs_for_amount 1 witnessOutputs).2.1
    ∧ (select_inputs_for_amount 1 witnessOutputs).2.2
        = (select_inputs_for_amount 1 witnessOutputs).2.1 - btcToSats 1
    ∧ 0 ≤ (select_inputs_for_amount 1 witnessOutputs).2.2 :=
  claim_c1 1 witnessOutputs (by simp [witnessOutputs, sumSats, outputSats])

theorem pyInt_intCast (z : ℤ) : pyInt (z : ℚ) = z := by
  unfold pyInt
  rw [Rat.intCast_num, Rat.intCast_den]
  simp [Int.tdiv_one]

theorem btcToSats_intCast (z : ℤ) : btcToSats (z : ℚ) = z * 100000000 := by
  unfold btcToSats
  rw [show ((z : ℚ) * 100000000) = ((z * 100000000 : ℤ) : ℚ) by push_cast; ring]
  exact pyInt_intCast _

theorem btcToSats_one : btcToSats 1 = 100000000 := by
  have h := btcToSats_intCast 1
  norm_num at h
  exact h

theorem btcToSats_two : btcToSats 2 = 200000000 := by
  have h := btcToSats_intCast 2
  norm_num at h
  exact h

/-- C2: for every list of unspent outputs (UTXO amounts are nonnegative by
construction, stated here as a hypothesis) and every target amount whose
satoshi value is strictly greater than the sum of all the outputs' satoshi
values, `select_inputs_for_amount` returns an empty input list, a total of
zero and a change of zero. -/
theorem claim_c2 (target_amount_btc : ℚ) (unspent_outputs : List UnspentOutput)
    (hpos : ∀ o ∈ unspent_outputs, 0 ≤ o.amount)
    (h : sumSats unspent_outputs < btcToSats target_amount_btc) :
    select_inputs_for_amount target_amount_btc unspent_outputs = ([], 0, 0) := by
  have hpos' : ∀ o ∈ sortByConfDesc unspent_outputs, 0 ≤ o.amount :=
    fun o ho => hpos o ((sortByConfDesc_perm unspent_outputs).subset ho)
  have hsum : sumSats (sortByConfDesc unspent_outputs)
      < btcToSats target_amount_btc := by
    rw [sumSats_sortByConfDesc]
    exact h
  have hloop := selectLoop_insufficient (btcToSats target_amount_btc)
    (sortByConfDesc unspent_outputs) hpos' hsum
  rw [select_inputs_eq, hloop, if_pos hsum]

theorem claim_c2_witness :
    select_inputs_for_amount 2 witnessOutputs = ([], 0, 0) :=
  claim_c2 2 witnessOutputs
    (by simp [witnessOutputs])
    (by simp [witnessOutputs, sumSats, outputSats, btcToSats_one, btcToSats_two])

theorem btcToSats_zero : btcToSats 0 = 0 := by
  have h := btcToSats_intCast 0
  norm_num at h
  exact h

theorem selectLoop_of_le (t total : ℤ) (h : t ≤ total)
    (l : List UnspentOutput) (acc : List TxInput) :
    selectLoop t l total acc = (acc, total) := by
  cases l with
  | nil => rfl
  | cons o rest => rw [selectLoop_cons, if_pos h]

/-- C5: a zero target amount yields the empty selection with zero total and
zero change, for every list of unspent outputs: the satoshi target is 0, the
loop breaks before consuming anything, and the sufficiency check passes. -/
theorem claim_c5 (unspent_outputs : List UnspentOutput) :
    select_inputs_for_amount 0 unspent_outputs = ([], 0, 0) := by
  rw [select_inputs_eq, btcToSats_zero,
    selectLoop_of_le 0 0 (le_refl 0) (sortByConfDesc unspent_outputs) []]
  norm_num

/-- Inserting into a list passes only over elements with strictly more
confirmations, so a filter that only keeps elements of one confirmation class
sees the inserted element first. -/
theorem filter_orderedInsert (p : UnspentOutput → Bool)
    (hp : ∀ x y, p x = true → p y = true → confDescOrder x y)
    (a : UnspentOutput) (l : List UnspentOutput) :
    (List.orderedInsert confDescOrder a l).filter p
      = if p a then a :: l.filter p else l.filter p := by
  induction l with
  | nil => simp [List.orderedInsert, List.filter_cons]
  | cons b rest ih =>
    by_cases hab : confDescOrder a b
    · rw [List.orderedInsert, if_pos hab, List.filter_cons]
    · rw [List.orderedInsert, if_neg hab, List.filter_cons, ih]
      by_cases hpb : p b = true
      · have hpa : ¬ p a = true := fun hpa => hab (hp a b hpa hpb)
        simp [hpa, hpb, List.filter_cons]
      · simp only [hpb, if_false, List.filter_cons]
        by_cases hpa : p a = true
        · simp [hpa, hpb]
        · simp [hpa, hpb]

/-- Stability of the stable descending sort: a filter keeping exactly one
confirmation class returns the same sublist, in the same order, before and
after sorting. -/
theorem filter_sortByConfDesc (p : UnspentOutput → Bool)
    (hp : ∀ x y, p x = true → p y = true → confDescOrder x y)
    (l : List UnspentOutput) :
    (sortByConfDesc l).filter p = l.filter p := by
  induction l with
  | nil => rfl
  | cons a rest ih =>
    show (List.orderedInsert confDescOrder a
      (List.insertionSort confDescOrder rest)).filter p = _
    rw [filter_orderedInsert p hp a (List.insertionSort confDescOrder rest)]
    show (if p a then a :: (sortByConfDesc rest).filter p
      else (sortByConfDesc rest).filter p) = _
    rw [ih, List.filter_cons]

theorem sortByConfDesc_sorted (l : List UnspentOutput) :
    (sortByConfDesc l).Pairwise
      (fun a b => b.confirmations ≤ a.confirmations) :=
  List.sorted_insertionSort confDescOrder l

/-- C3: the inputs accumulated by `select_inputs_for_amount` are exactly the
image of the shortest satoshi-sufficient prefix of the stably descending
sorted list (the whole list when no prefix suffices); the sort is a
permutation, it is descending in confirmations, and it is stable: every
equal-confirmation class keeps its original relative order.  When the prefix
reaches the target, the returned selection is exactly that prefix's input
records (when it does not, line 186-187 of the source replaces the selection
by the empty insufficient-funds result, covered by C2). -/
theorem claim_c3 (target_amount_btc : ℚ) (unspent_outputs : List UnspentOutput) :
    (sortByConfDesc unspent_outputs).Perm unspent_outputs
    ∧ (sortByConfDesc unspent_outputs).Pairwise
        (fun a b => b.confirmations ≤ a.confirmations)
    ∧ (∀ c : ℤ,
        (sortByConfDesc unspent_outputs).filter
            (fun o => decide (o.confirmations = c))
          = unspent_outputs.filter (fun o => decide (o.confirmations = c)))
    ∧ ∃ n, n ≤ (sortByConfDesc unspent_outputs).length
        ∧ selectLoop (btcToSats target_amount_btc)
              (sortByConfDesc unspent_outputs) 0 []
            = (((sortByConfDesc unspent_outputs).take n).map mkTxInput,
               sumSats ((sortByConfDesc unspent_outputs).take n))
        ∧ (∀ k, k < n →
            sumSats ((sortByConfDesc unspent_outputs).take k)
              < btcToSats target_amount_btc)
        ∧ (btcToSats target_amount_btc
              ≤ sumSats ((sortByConfDesc unspent_outputs).take n)
            ∨ n = (sortByConfDesc unspent_outputs).length)
        ∧ (btcToSats target_amount_btc
              ≤ sumSats ((sortByConfDesc unspent_outputs).take n) →
            (select_inputs_for_amount target_amount_btc unspent_outputs).1
              = ((sortByConfDesc unspent_outputs).take n).map mkTxInput) := by
  refine ⟨sortByConfDesc_perm unspent_outputs,
    sortByConfDesc_sorted unspent_outputs, ?_, ?_⟩
  · intro c
    refine filter_sortByConfDesc _ ?_ unspent_outputs
    intro x y hx hy
    have hx' : x.confirmations = c := of_decide_eq_true hx
    have hy' : y.confirmations = c := of_decide_eq_true hy
    unfold confDescOrder
    rw [hx', hy']
  · obtain ⟨n, hn, heq, hmin, hlast⟩ := selectLoop_spec
      (btcToSats target_amount_btc) (sortByConfDesc unspent_outputs) 0 []
    simp only [zero_add, List.nil_append] at heq hmin hlast
    refine ⟨n, hn, heq, hmin, hlast, ?_⟩
    intro hreach
    have htot : (selectLoop (btcToSats target_amount_btc)
        (sortByConfDesc unspent_outputs) 0 []).2
        = sumSats ((sortByConfDesc unspent_outputs).take n) := by
      rw [heq]
    rw [select_inputs_eq, if_neg (not_lt.mpr (htot ▸ hreach)), heq]

/-- For nonnegative rationals, Python truncation coincides with the floor. -/
theorem pyInt_eq_floor {q : ℚ} (h : 0 ≤ q) : pyInt q = ⌊q⌋ := by
  unfold pyInt
  rw [Rat.floor_def, Int.tdiv_eq_ediv (Rat.num_nonneg.mpr h) (by positivity)]

theorem btcToSats_seven_quarter_sats : btcToSats (7 / 400000000) = 1 := by
  unfold btcToSats
  rw [show ((7 : ℚ) / 400000000 * 100000000) = 7 / 4 by ring]
  norm_num [pyInt]
  decide

theorem specRoundSats_seven_quarter_sats : specRoundSats (7 / 400000000) = 2 := by
  unfold specRoundSats
  rw [show ((7 : ℚ) / 400000000 * 100000000) = 7 / 4 by ring, round_eq]
  norm_num

/-- C4 counterexample: at the concrete amount 7/400000000 BTC (1.75 satoshis)
the code's satoshi target is 1, while round(amount × 10^8) is 2: the code
truncates instead of rounding to the nearest integer. -/
theorem claim_c4_counterexample :
    btcToSats (7 / 400000000) ≠ specRoundSats (7 / 400000000) := by
  rw [btcToSats_seven_quarter_sats, specRoundSats_seven_quarter_sats]
  decide

/-- C4 as amended: for every nonnegative target amount, the satoshi target
used by `select_inputs_for_amount` is amount × 10^8 truncated (the floor, for
nonnegative amounts), not rounded; truncation and rounding agree whenever
amount × 10^8 is an integer, i.e. whenever the amount is a whole number of
satoshis. -/
theorem claim_c4_amended (target_amount_btc : ℚ) (h : 0 ≤ target_amount_btc) :
    btcToSats target_amount_btc = ⌊target_amount_btc * 100000000⌋
    ∧ ((target_amount_btc * 100000000).den = 1 →
        btcToSats target_amount_btc = specRoundSats target_amount_btc) := by
  have hfloor : btcToSats target_amount_btc = ⌊target_amount_btc * 100000000⌋ :=
    pyInt_eq_floor (mul_nonneg h (by norm_num))
  refine ⟨hfloor, fun hden => ?_⟩
  have hq : (((target_amount_btc * 100000000 : ℚ).num : ℚ))
      = target_amount_btc * 100000000 :=
    (Rat.den_eq_one_iff _).mp hden
  unfold specRoundSats
  rw [hfloor, ← hq, Int.floor_intCast, round_intCast]

theorem claim_c4_amended_witness :
    btcToSats 1 = ⌊(1 : ℚ) * 100000000⌋
    ∧ (((1 : ℚ) * 100000000).den = 1 → btcToSats 1 = specRoundSats 1) :=
  claim_c4_amended 1 (by norm_num)

/-- C6: the estimated size is exactly 10 + inputs × (68 if segwit else 148) +
outputs × 34 bytes, and the fee is exactly size × rate satoshis, in exact
integer arithmetic for all nonnegative counts and every integer rate. -/
theorem claim_c6 (input_count output_count : ℕ) (is_segwit : Bool)
    (sat_per_byte : ℤ) :
    estimate_transaction_size (input_count : ℤ) (output_count : ℤ) is_segwit
      = 10 + (input_count : ℤ) * (if is_segwit then 68 else 148)
          + (output_count : ℤ) * 34
    ∧ calculate_transaction_fee
          (estimate_transaction_size (input_count : ℤ) (output_count : ℤ)
            is_segwit) sat_per_byte
      = (10 + (input_count : ℤ) * (if is_segwit then 68 else 148)
          + (output_count : ℤ) * 34) * sat_per_byte := by
  unfold estimate_transaction_size calculate_transaction_fee
  cases is_segwit <;> simp

/-- Exhaustive description of the assembly tail: it either stops right after
the create step (create failed or returned a falsy value), after the sign
step (signing raised), after the verify step (signing returned `None`-like or
an incomplete result), or performs all four steps; the later stages are
reachable only with a truthy create result, and the broadcast only with a
signing result whose `complete` flag is true. -/
theorem txAssembly_cases (env : NodeEnv) (inputs : List TxInput)
    (outputs : List (String × ℚ)) (t : List FlowStep) :
    txAssembly env inputs outputs t = t ++ [FlowStep.createRaw]
    ∨ ((∃ raw, env.createRpc = RpcOutcome.ok raw ∧ raw ≠ "")
        ∧ (txAssembly env inputs outputs t
              = t ++ [FlowStep.createRaw, FlowStep.signTx]
           ∨ txAssembly env inputs outputs t
              = t ++ [FlowStep.createRaw, FlowStep.signTx,
                  FlowStep.verifyComplete]
           ∨ (txAssembly env inputs outputs t
                = t ++ [FlowStep.createRaw, FlowStep.signTx,
                    FlowStep.verifyComplete, FlowStep.broadcastTx]
              ∧ ∃ s, env.signRpc = RpcOutcome.ok s ∧ s.complete = true))) := by
  unfold txAssembly
  rcases hc : env.createRpc with raw | m | m
  · by_cases hraw : raw.isEmpty = true
    · left
      simp [create_raw_transaction, hc, hraw]
    · have hraw' : raw ≠ "" := fun h => hraw (by rw [h]; rfl)
      right
      refine ⟨⟨raw, rfl, hraw'⟩, ?_⟩
      rcases hs : env.signRpc with s | m2 | m2
      · by_cases hcomp : s.complete = true
        · right
          right
          refine ⟨?_, s, rfl, hcomp⟩
          simp [create_raw_transaction, sign_transaction, hc, hs, hraw, hcomp,
            List.append_assoc]
        · right
          left
          simp [create_raw_transaction, sign_transaction, hc, hs, hraw, hcomp,
            List.append_assoc]
      · left
        simp [create_raw_transaction, sign_transaction, hc, hs, hraw,
          List.append_assoc]
      · left
        simp [create_raw_transaction, sign_transaction, hc, hs, hraw,
          List.append_assoc]
  · left
    simp [create_raw_transaction, hc]
  · left
    simp [create_raw_transaction, hc]

/-- A trace that contains none of the four assembly steps. -/
def hasNoAssemblySteps (t : List FlowStep) : Prop :=
  FlowStep.createRaw ∉ t ∧ FlowStep.signTx ∉ t
    ∧ FlowStep.verifyComplete ∉ t ∧ FlowStep.broadcastTx ∉ t

instance (t : List FlowStep) : Decidable (hasNoAssemblySteps t) :=
  inferInstanceAs (Decidable (_ ∧ _ ∧ _ ∧ _))

/-- Either the flow aborts before the assembly tail (trace without assembly
steps), or it runs the assembly tail after a step-free prelude. -/
def flowShape (env : NodeEnv) (tr : List FlowStep) : Prop :=
  hasNoAssemblySteps tr
  ∨ ∃ inputs outputs t, tr = txAssembly env inputs outputs t
      ∧ hasNoAssemblySteps t

theorem create_and_send_shape (env : NodeEnv) :
    flowShape env (create_and_send_transaction env) := by
  unfold create_and_send_transaction
  dsimp only
  repeat' split
  all_goals first
    | exact Or.inl (by decide)
    | (refine Or.inr ⟨_, _, _, rfl, ?_⟩
       decide)

theorem count_append_singleton_le (t suffix : List FlowStep) (x : FlowStep)
    (hx : x ∉ t) (hs : suffix.count x ≤ 1) : (t ++ suffix).count x ≤ 1 := by
  rw [List.count_append, List.count_eq_zero.mpr hx]
  simpa using hs

/-- C7: in `create_and_send_transaction`, the create, sign, verify-complete
and broadcast steps are each performed at most once (no retries); the sign
step runs only if the create RPC returned a truthy raw transaction; and the
broadcast step runs only if, in addition, the sign RPC returned a result
whose `complete` flag is true, with the four steps appearing in the trace in
that strict order.  A failure at any step therefore aborts every remaining
step. -/
theorem claim_c7 (env : NodeEnv) :
    ((create_and_send_transaction env).count FlowStep.createRaw ≤ 1
      ∧ (create_and_send_transaction env).count FlowStep.signTx ≤ 1
      ∧ (create_and_send_transaction env).count FlowStep.broadcastTx ≤ 1)
    ∧ (FlowStep.signTx ∈ create_and_send_transaction env →
        ∃ raw, env.createRpc = RpcOutcome.ok raw ∧ raw ≠ "")
    ∧ (FlowStep.broadcastTx ∈ create_and_send_transaction env →
        (∃ raw, env.createRpc = RpcOutcome.ok raw ∧ raw ≠ "")
        ∧ (∃ s, env.signRpc = RpcOutcome.ok s ∧ s.complete = true)
        ∧ List.Sublist
            [FlowStep.createRaw, FlowStep.signTx, FlowStep.verifyComplete,
              FlowStep.broadcastTx]
            (create_and_send_transaction env)) := by
  rcases create_and_send_shape env with hno | ⟨inputs, outputs, t, heq, hno⟩
  · obtain ⟨hc, hs, hv, hb⟩ := hno
    refine ⟨⟨?_, ?_, ?_⟩, fun h => absurd h hs, fun h => absurd h hb⟩
    · rw [List.count_eq_zero.mpr hc]
      norm_num
    · rw [List.count_eq_zero.mpr hs]
      norm_num
    · rw [List.count_eq_zero.mpr hb]
      norm_num
  · obtain ⟨hc, hs, hv, hb⟩ := hno
    rcases txAssembly_cases env inputs outputs t with h1 |
      ⟨hcreate, h2 | h3 | ⟨h4, hsign⟩⟩
    · rw [heq, h1]
      refine ⟨⟨?_, ?_, ?_⟩, ?_, ?_⟩
      · exact count_append_singleton_le t _ _ hc (by decide)
      · exact count_append_singleton_le t _ _ hs (by decide)
      · exact count_append_singleton_le t _ _ hb (by decide)
      · intro h
        rcases List.mem_append.mp h with h | h
        · exact absurd h hs
        · simp at h
      · intro h
        rcases List.mem_append.mp h with h | h
        · exact absurd h hb
        · simp at h
    · rw [heq, h2]
      refine ⟨⟨?_, ?_, ?_⟩, fun _ => hcreate, ?_⟩
      · exact count_append_singleton_le t _ _ hc (by decide)
      · exact count_append_singleton_le t _ _ hs (by decide)
      · exact count_append_singleton_le t _ _ hb (by decide)
      · intro h
        rcases List.mem_append.mp h with h | h
        · exact absurd h hb
        · simp at h
    · rw [heq, h3]
      refine ⟨⟨?_, ?_, ?_⟩, fun _ => hcreate, ?_⟩
      · exact count_append_singleton_le t _ _ hc (by decide)
      · exact count_append_singleton_le t _ _ hs (by decide)
      · exact count_append_singleton_le t _ _ hb (by decide)
      · intro h
        rcases List.mem_append.mp h with h | h
        · exact absurd h hb
        · simp at h
    · rw [heq, h4]
      refine ⟨⟨?_, ?_, ?_⟩, fun _ => hcreate, fun _ =>
        ⟨hcreate, hsign, List.sublist_append_right t _⟩⟩
      · exact count_append_singleton_le t _ _ hc (by decide)
      · exact count_append_singleton_le t _ _ hs (by decide)
      · exact count_append_singleton_le t _ _ hb (by decide)

/-- C8 counterexample: a non-`JSONRPCException` failure (for example a
transport error) raised during the `createrawtransaction` call is not caught
by the `except JSONRPCException` clause of `create_raw_transaction`: the
operation ends with an uncaught exception instead of the null result the
claim requires. -/
theorem claim_c8_counterexample :
    (create_raw_transaction true [] [] (RpcOutcome.otherError "boom")).1
        = Except.error "boom"
    ∧ (create_raw_transaction true [] [] (RpcOutcome.otherError "boom")).1
        ≠ Except.ok none :=
  ⟨rfl, fun h => Except.noConfusion h⟩

/-- C8 as amended: every `JSONRPCException` raised by the RPC call is caught
inside the operation and converted into `None` (or the empty list for
`get_unspent_outputs`); `calculate_unspent_balance` additionally catches
every other failure through its `except Exception` clause.  Failures other
than `JSONRPCException` in the four operations of
src/making_new_transaction.py propagate to the caller. -/
theorem claim_c8_amended (msg addr raw_hex signed_hex : String)
    (inputs : List TxInput) (outputs : List (String × ℚ)) :
    (create_raw_transaction true inputs outputs (RpcOutcome.jsonRpcError msg)).1
        = Except.ok none
    ∧ (sign_transaction raw_hex (RpcOutcome.jsonRpcError msg)).1 = Except.ok none
    ∧ (broadcast_transaction signed_hex (RpcOutcome.jsonRpcError msg)).1
        = Except.ok none
    ∧ (get_unspent_outputs (RpcOutcome.jsonRpcError msg)).1 = Except.ok []
    ∧ (calculate_unspent_balance true addr (RpcOutcome.jsonRpcError msg)).1
        = Except.ok none
    ∧ (calculate_unspent_balance true addr (RpcOutcome.otherError msg)).1
        = Except.ok none :=
  ⟨rfl, rfl, rfl, rfl, rfl, rfl⟩

/-- The aggregation loop computes exactly the address-filtered records, and
its running satoshi total is the sum of their `sats_value` fields. -/
theorem scanUnspent_spec (target_address : String) (txs : List NodeUtxo) :
    (scanUnspent target_address txs).2
        = (txs.filter (fun t => decide (t.address = target_address))).map mkRecord
    ∧ (scanUnspent target_address txs).1
        = (((scanUnspent target_address txs).2).map UnspentRecord.sats_value).sum := by
  induction txs with
  | nil => exact ⟨rfl, rfl⟩
  | cons t rest ih =>
    obtain ⟨ih2, ih1⟩ := ih
    by_cases ht : t.address = target_address
    · constructor
      · show (scanUnspent target_address (t :: rest)).2 = _
        rw [List.filter_cons]
        simp only [ht]
        simp only [decide_eq_true_eq, if_true]
        show (if t.address = target_address then _ else _ :
          ℤ × List UnspentRecord).2 = _
        rw [if_pos ht]
        simpa using ih2
      · show (scanUnspent target_address (t :: rest)).1 = _
        show (if t.address = target_address then _ else _ :
          ℤ × List UnspentRecord).1 = _
        rw [if_pos ht]
        simp only [if_pos ht]
        show btcToSats t.amount + (scanUnspent target_address rest).1 = _
        rw [ih1]
        simp [mkRecord, scanUnspent, ht]
    · constructor
      · show (scanUnspent target_address (t :: rest)).2 = _
        rw [List.filter_cons]
        rw [if_neg (by simpa using ht)]
        show (if t.address = target_address then _ else _ :
          ℤ × List UnspentRecord).2 = _
        rw [if_neg ht]
        exact ih2
      · show (scanUnspent target_address (t :: rest)).1 = _
        show (if t.address = target_address then _ else _ :
          ℤ × List UnspentRecord).1 = _
        rw [if_neg ht]
        show (scanUnspent target_address rest).1 = _
        rw [ih1]
        congr 1
        show _ = ((if t.address = target_address then _ else _ :
          ℤ × List UnspentRecord).2).map _
        rw [if_neg ht]

/-- C9: every successful (non-null) report of `calculate_unspent_balance`
satisfies the aggregation invariants: `total_sats` is the sum of the
`sats_value` fields of `unspent_list`, `unspent_count` is its length,
`total_btc` is `total_sats / 10^8`, and `unspent_list` consists exactly of
the node's UTXOs whose `address` field equals the queried address, in
order. -/
theorem claim_c9 (node_client : Bool) (target_address : String)
    (rpc : RpcOutcome (List NodeUtxo)) (report : BalanceReport)
    (h : (calculate_unspent_balance node_client target_address rpc).1
        = Except.ok (some report)) :
    report.total_sats = ((report.unspent_list).map UnspentRecord.sats_value).sum
    ∧ report.unspent_count = report.unspent_list.length
    ∧ report.total_btc = (report.total_sats : ℚ) / 100000000
    ∧ ∀ txs, rpc = RpcOutcome.ok txs →
        report.unspent_list
          = (txs.filter (fun t => decide (t.address = target_address))).map
              mkRecord := by
  cases node_client with
  | false => exact absurd h (by simp [calculate_unspent_balance])
  | true =>
    rcases rpc with txs | m | m
    · have hrep : report = mkBalanceReport target_address txs := by
        have h' := h
        simp only [calculate_unspent_balance, Bool.not_true] at h'
        cases h'
        rfl
      obtain ⟨hlist, hsum⟩ := scanUnspent_spec target_address txs
      subst hrep
      refine ⟨?_, rfl, rfl, ?_⟩
      · show (scanUnspent target_address txs).1
          = (((scanUnspent target_address txs).2).map UnspentRecord.sats_value).sum
        exact hsum
      · intro txs' htxs
        cases htxs
        exact hlist
    · exact absurd h (by simp [calculate_unspent_balance])
    · exact absurd h (by simp [calculate_unspent_balance])

/-- A fixed node UTXO used by the C9 witness: 1 BTC, 1 confirmation,
belonging to the queried address. -/
def witnessNodeUtxo : NodeUtxo :=
  ⟨"t0", 0, 1, 1, true, some true, "addr1"⟩

theorem claim_c9_witness :
    (mkBalanceReport "addr1" [witnessNodeUtxo]).total_sats
        = (((mkBalanceReport "addr1" [witnessNodeUtxo]).unspent_list).map
            UnspentRecord.sats_value).sum
    ∧ (mkBalanceReport "addr1" [witnessNodeUtxo]).unspent_count
        = (mkBalanceReport "addr1" [witnessNodeUtxo]).unspent_list.length
    ∧ (mkBalanceReport "addr1" [witnessNodeUtxo]).total_btc
        = ((mkBalanceReport "addr1" [witnessNodeUtxo]).total_sats : ℚ) / 100000000
    ∧ ∀ txs, RpcOutcome.ok [witnessNodeUtxo] = RpcOutcome.ok txs →
        (mkBalanceReport "addr1" [witnessNodeUtxo]).unspent_list
          = (txs.filter (fun t => decide (t.address = "addr1"))).map mkRecord :=
  claim_c9 true "addr1" (RpcOutcome.ok [witnessNodeUtxo])
    (mkBalanceReport "addr1" [witnessNodeUtxo]) rfl

/-- C10: with no connected node client, `calculate_unspent_balance` and
`create_raw_transaction` both return `None` immediately, attempting no RPC
call, whatever their other arguments are. -/
theorem claim_c10 (target_address : String) (rpc : RpcOutcome (List NodeUtxo))
    (inputs_list : List TxInput) (outputs_dict : List (String × ℚ))
    (rpc2 : RpcOutcome String) :
    calculate_unspent_balance false target_address rpc = (Except.ok none, [])
    ∧ create_raw_transaction false inputs_list outputs_dict rpc2
        = (Except.ok none, []) :=
  ⟨rfl, rfl⟩
